import Mathlib

/-!
Verification of the THREAT/crawl time-scheduling and control core.

Shallow embedding of the scheduling and control logic of
`src/threatcrawl/src/python/crawler/crawler_time_controller.py`,
`src/threatcrawl/src/python/crawler/crawler_main.py`,
`src/threatcrawl/src/python/cli/crawl_command.py`,
`src/threatcrawl/src/python/cli/captcha_command.py` and
`src/threatcrawl/src/python/crawler/captcha_solver.py`.

Instants are modelled as integer seconds; a schedule entry is a pair
`(start instant, duration in seconds)`.
-/

/-- State of `CrawlerTimeController`: `breakQueue` models the `Queue` contents
front-first (`queue.queue[0]` is the head popped by `get()`); `interruptQueue`
models the `deque` listed left-to-right, so `appendleft` is `List.cons`, and
`append` / `[-1]` / `pop()` act on the last element of the list. -/
structure TimeCtrl where
  breakQueue : List (Int × Int)
  interruptQueue : List (Int × Int)
deriving Repr, DecidableEq

/-- Second half of `CrawlerTimeController.check_break_interrupt`
(crawler_time_controller.py lines 121-129): if the interrupt deque is non-empty
and its rightmost entry (`interrupt_queue[-1]`) has a start time that has
passed, `pop()` it (from the right) and return its duration; otherwise return
0 with the state unchanged. -/
def check_interrupt_part (now : Int) (tc : TimeCtrl) : Int × TimeCtrl :=
  match tc.interruptQueue.getLast? with
  | some (s, d) =>
    if s ≤ now then (d, ⟨tc.breakQueue, tc.interruptQueue.dropLast⟩) else (0, tc)
  | none => (0, tc)

/-- Translation of `CrawlerTimeController.check_break_interrupt`
(crawler_time_controller.py lines 101-129): if the break queue is non-empty and
its front entry's start time has passed, pop it and return its duration;
otherwise fall through to the interrupt deque check; otherwise return 0. -/
def check_break_interrupt (now : Int) (tc : TimeCtrl) : Int × TimeCtrl :=
  match tc.breakQueue with
  | (s, d) :: rest =>
    if s ≤ now then (d, ⟨rest, tc.interruptQueue⟩) else check_interrupt_part now tc
  | [] => check_interrupt_part now tc

/-- Translation of `CrawlerTimeController._add_interrupt`
(crawler_time_controller.py lines 79-99): raise `ValueError` when
`interrupt_time` is negative — the raise happens before any mutation, so the
error branch carries the unchanged state — otherwise `append` the tuple
`(now, interrupt_time)` at the right end of the interrupt deque. -/
def add_interrupt (now : Int) (interrupt_time : Int) (tc : TimeCtrl) :
    Except TimeCtrl TimeCtrl :=
  if interrupt_time < 0 then .error tc
  else .ok ⟨tc.breakQueue, tc.interruptQueue ++ [(now, interrupt_time)]⟩

/-- Translation of `CrawlerTimeController.get_break_schedule`
(crawler_time_controller.py lines 131-140): returns the break queue itself. -/
def get_break_schedule (tc : TimeCtrl) : List (Int × Int) := tc.breakQueue

/-- Translation of `CrawlerTimeController.get_interrupt_schedule`
(crawler_time_controller.py lines 142-151): returns the interrupt deque itself
(by reference, no copy). -/
def get_interrupt_schedule (tc : TimeCtrl) : List (Int × Int) := tc.interruptQueue

/-- Effect of `CrawlerMain.generate_cli_status` (crawler_main.py lines 245-263)
on the time controller's queues: it fetches both queues through the accessors
(by reference) and calls `deque.reverse()` on the interrupt deque, which
reverses the controller's deque in place; the break queue is only iterated. -/
def generate_cli_status (tc : TimeCtrl) : TimeCtrl :=
  ⟨tc.breakQueue, tc.interruptQueue.reverse⟩

/-- The push used by `CrawlerTimeController.__generate_schedule` for scheduled
interruptions (crawler_time_controller.py line 264):
`interrupt_queue.appendleft(e)`, insertion at the LEFT end of the deque. -/
def sched_push (e : Int × Int) (q : List (Int × Int)) : List (Int × Int) := e :: q

/-- A sequence of `__generate_schedule` pushes applied in order (first element
of `es` pushed first). -/
def sched_push_all (es : List (Int × Int)) (q : List (Int × Int)) : List (Int × Int) :=
  es.foldl (fun acc e => sched_push e acc) q

/-- The front break is due: break queue non-empty and its head's start time has
passed (the first guard pair of `check_break_interrupt`, lines 115-117). -/
def break_due (now : Int) (tc : TimeCtrl) : Bool :=
  match tc.breakQueue with
  | (s, _) :: _ => decide (s ≤ now)
  | [] => false

/-- The examined interruption is due: interrupt deque non-empty and the start
time of its rightmost entry has passed (the second guard pair of
`check_break_interrupt`, lines 122-124). -/
def interrupt_due (now : Int) (tc : TimeCtrl) : Bool :=
  match tc.interruptQueue.getLast? with
  | some (s, _) => decide (s ≤ now)
  | none => false

lemma sched_push_all_eq (es q : List (Int × Int)) :
    sched_push_all es q = es.reverse ++ q := by
  induction es generalizing q with
  | nil => simp [sched_push_all]
  | cons e es ih =>
    simp only [sched_push_all, List.foldl_cons, List.reverse_cons, List.append_assoc,
      List.cons_append, List.nil_append]
    exact ih (sched_push e q)

/-- Claim C1 counterexample: push `(5, 1)` and then `(10, 2)` with the
ScheduleBuilder push (`appendleft`) into an empty deque; `(10, 2)` is the most
recently pushed entry, yet `check_break_interrupt` (empty break queue, time 20,
both entries due) examines and pops `(5, 1)` — the FIRST pushed entry — leaving
`(10, 2)` in the deque, so the popped entry is not the most recently pushed one
and consumption is not in descending start-time order. -/
theorem C1_counterexample :
    sched_push_all [(5, 1), (10, 2)] [] = [(10, 2), (5, 1)] ∧
    check_break_interrupt 20 ⟨[], sched_push_all [(5, 1), (10, 2)] []⟩
      = (1, ⟨[], [(10, 2)]⟩) ∧
    check_break_interrupt 20 ⟨[], sched_push_all [(5, 1), (10, 2)] []⟩
      ≠ (2, ⟨[], [(5, 1)]⟩) := by decide

/-- Claim C1 (amended): `__generate_schedule` pushes scheduled interruptions at
the LEFT end of the deque (`appendleft`) while `check_break_interrupt` examines
and pops the RIGHT end, i.e. the two operations use OPPOSITE ends; hence for
every sequence of ScheduleBuilder pushes the entry examined (and popped first,
when due and no break is due) is the FIRST (least recently) pushed one —
scheduled interruptions are consumed FIFO, in ascending order of generation. -/
theorem C1_sched_pushes_consumed_fifo (s d : Int) (es : List (Int × Int))
    (now : Int) (hdue : s ≤ now) :
    check_break_interrupt now ⟨[], sched_push_all ((s, d) :: es) []⟩
      = (d, ⟨[], (sched_push_all ((s, d) :: es) []).dropLast⟩) := by
  have hq : sched_push_all ((s, d) :: es) [] = es.reverse ++ [(s, d)] := by
    simpa using sched_push_all_eq ((s, d) :: es) []
  simp only [check_break_interrupt, check_interrupt_part, hq]
  rw [List.getLast?_concat]
  simp [hdue]

/-- Concrete run of `C1_sched_pushes_consumed_fifo`: pushes `(5, 1)` then
`(10, 2)`; the examined and popped entry at time 20 is the first push. -/
theorem C1_sched_pushes_consumed_fifo_witness :
    check_break_interrupt 20 ⟨[], sched_push_all [(5, 1), (10, 2)] []⟩
      = (1, ⟨[], (sched_push_all [(5, 1), (10, 2)] []).dropLast⟩) :=
  C1_sched_pushes_consumed_fifo 5 1 [(10, 2)] 20 (by decide)

/-- Claim C2 (code bug, evaluated at the failing input): with break queue
`[(9, 9)]` and interrupt deque `[(1, 2), (3, 4)]`, the two accessors are
read-only, but one call to `generate_cli_status` reverses the controller's
interrupt deque in place (it becomes `[(3, 4), (1, 2)]`), so the queues do NOT
hold the same entries in the same order as before the call. -/
theorem C2_status_reverses_interrupt_queue :
    get_break_schedule ⟨[(9, 9)], [(1, 2), (3, 4)]⟩ = [(9, 9)] ∧
    get_interrupt_schedule ⟨[(9, 9)], [(1, 2), (3, 4)]⟩ = [(1, 2), (3, 4)] ∧
    generate_cli_status ⟨[(9, 9)], [(1, 2), (3, 4)]⟩ = ⟨[(9, 9)], [(3, 4), (1, 2)]⟩ ∧
    generate_cli_status ⟨[(9, 9)], [(1, 2), (3, 4)]⟩ ≠ ⟨[(9, 9)], [(1, 2), (3, 4)]⟩ := by
  decide

/-- Claim C4: full case analysis of `check_break_interrupt`. If the break queue
is non-empty and its front is due, that front is popped and its duration
returned with the interrupt deque untouched (so a due break preempts a due
interruption in the same call); otherwise, if the examined (rightmost)
interruption is due, it is popped and its duration returned with the break
queue untouched; otherwise the call returns 0 and leaves both queues exactly
as they were. -/
theorem C4_check_break_interrupt_cases (tc : TimeCtrl) (now : Int) :
    (∀ s d rest, tc.breakQueue = (s, d) :: rest → s ≤ now →
      check_break_interrupt now tc = (d, ⟨rest, tc.interruptQueue⟩)) ∧
    (break_due now tc = false →
      ∀ s d, tc.interruptQueue.getLast? = some (s, d) → s ≤ now →
        check_break_interrupt now tc
          = (d, ⟨tc.breakQueue, tc.interruptQueue.dropLast⟩)) ∧
    (break_due now tc = false → interrupt_due now tc = false →
      check_break_interrupt now tc = (0, tc)) := by
  obtain ⟨bq, iq⟩ := tc
  refine ⟨?_, ?_, ?_⟩
  · rintro s d rest h hdue
    simp only at h
    subst h
    simp [check_break_interrupt, hdue]
  · intro hnb s d hlast hdue
    cases bq with
    | nil =>
      simp [check_break_interrupt, check_interrupt_part, hlast, hdue]
    | cons e rest =>
      obtain ⟨es, ed⟩ := e
      have : ¬ es ≤ now := by
        simpa [break_due] using hnb
      simp [check_break_interrupt, check_interrupt_part, this, hlast, hdue]
  · intro hnb hni
    cases bq with
    | nil =>
      simp only [check_break_interrupt, check_interrupt_part]
      cases hlast : iq.getLast? with
      | none => simp
      | some e =>
        obtain ⟨s, d⟩ := e
        have : ¬ s ≤ now := by
          simpa [interrupt_due, hlast] using hni
        simp [this]
    | cons e rest =>
      obtain ⟨es, ed⟩ := e
      have hes : ¬ es ≤ now := by
        simpa [break_due] using hnb
      simp only [check_break_interrupt, check_interrupt_part, if_neg hes]
      cases hlast : iq.getLast? with
      | none => simp
      | some p =>
        obtain ⟨s, d⟩ := p
        have : ¬ s ≤ now := by
          simpa [interrupt_due, hlast] using hni
        simp [this]

/-- Concrete run of `C4_check_break_interrupt_cases`: break `(5, 111)` and
interruption `(5, 222)` both due at time 10; the break is popped and wins the
tie, the interrupt deque is untouched. -/
theorem C4_check_break_interrupt_cases_witness :
    check_break_interrupt 10 ⟨[(5, 111)], [(5, 222)]⟩ = (111, ⟨[], [(5, 222)]⟩) :=
  (C4_check_break_interrupt_cases ⟨[(5, 111)], [(5, 222)]⟩ 10).1 5 111 [] rfl
    (by decide)

/-- Claim C7: `_add_interrupt` raises for every negative duration, with the
interrupt deque untouched (the raise precedes the append); for every
non-negative duration it appends `(now, d)` at the right end — the end examined
by `check_break_interrupt` — so a subsequent check at any time `t ≥ now` at
which no break is due pops that entry and returns `d`. -/
theorem C7_add_interrupt_spec (tc : TimeCtrl) (now t d : Int) :
    (d < 0 → add_interrupt now d tc = .error tc) ∧
    (0 ≤ d → add_interrupt now d tc
      = .ok ⟨tc.breakQueue, tc.interruptQueue ++ [(now, d)]⟩) ∧
    (0 ≤ d → now ≤ t → break_due t tc = false →
      check_break_interrupt t ⟨tc.breakQueue, tc.interruptQueue ++ [(now, d)]⟩
        = (d, ⟨tc.breakQueue, tc.interruptQueue⟩)) := by
  obtain ⟨bq, iq⟩ := tc
  refine ⟨?_, ?_, ?_⟩
  · intro hneg
    simp [add_interrupt, hneg]
  · intro hpos
    simp [add_interrupt, not_lt.mpr hpos]
  · intro _ hnow hnb
    cases bq with
    | nil =>
      simp only [check_break_interrupt, check_interrupt_part]
      rw [List.getLast?_concat]
      simp [hnow, List.dropLast_concat]
    | cons e rest =>
      obtain ⟨es, ed⟩ := e
      have hes : ¬ es ≤ t := by
        simpa [break_due] using hnb
      simp only [check_break_interrupt, check_interrupt_part, if_neg hes]
      rw [List.getLast?_concat]
      simp [hnow, List.dropLast_concat]

/-- Concrete run of `C7_add_interrupt_spec`: `add_interrupt` of -3 fails
leaving the deque `[(0, 7)]` untouched; `add_interrupt` of 300 at time 5
appends `(5, 300)` at the right end and the check at time 6 (break `(50, 9)`
not due) returns 300 and removes exactly that entry. -/
theorem C7_add_interrupt_spec_witness :
    add_interrupt 5 (-3) ⟨[(50, 9)], [(0, 7)]⟩ = .error ⟨[(50, 9)], [(0, 7)]⟩ ∧
    add_interrupt 5 300 ⟨[(50, 9)], [(0, 7)]⟩
      = .ok ⟨[(50, 9)], [(0, 7), (5, 300)]⟩ ∧
    check_break_interrupt 6 ⟨[(50, 9)], [(0, 7), (5, 300)]⟩
      = (300, ⟨[(50, 9)], [(0, 7)]⟩) :=
  ⟨(C7_add_interrupt_spec ⟨[(50, 9)], [(0, 7)]⟩ 5 6 (-3)).1 (by decide),
   (C7_add_interrupt_spec ⟨[(50, 9)], [(0, 7)]⟩ 5 6 300).2.1 (by decide),
   (C7_add_interrupt_spec ⟨[(50, 9)], [(0, 7)]⟩ 5 6 300).2.2 (by decide) (by decide)
     (by decide)⟩

/-- Events performed by the tail of `CrawlerTimeController.__generate_schedule`
(crawler_time_controller.py lines 270-273). -/
inductive SchedEvent
  | registerNextDayTrigger
  | logAndExit
deriving Repr, DecidableEq

/-- Translation of the tail of `__generate_schedule` (lines 270-273) as the
sequence of effects it performs: `self.__schedule_next_execution()` is called
unconditionally FIRST (it writes the runner script and registers the next-day
crontab trigger), and only then, if the deviated start time exceeds the
deviated end-of-day time, the infeasible day is logged and the process exits
via `exit(0)` before any crawling. -/
def schedule_finish (startInstant endOfDay : Int) : List SchedEvent :=
  SchedEvent.registerNextDayTrigger ::
    (if endOfDay < startInstant then [SchedEvent.logAndExit] else [])

/-- Claim C3 counterexample: on an infeasible day (deviated start 10, deviated
end 5) the run does terminate with no crawling, but the next-day one-shot
re-invocation trigger HAS been registered — `__schedule_next_execution()` runs
before the `start > end` check, so the claim that no trigger is registered on
such a day is false. -/
theorem C3_counterexample :
    schedule_finish 10 5
      = [SchedEvent.registerNextDayTrigger, SchedEvent.logAndExit] ∧
    SchedEvent.registerNextDayTrigger ∈ schedule_finish 10 5 := by decide

/-- Claim C3 (amended): when the deviated start instant exceeds the deviated
end-of-day instant, `__generate_schedule` logs and terminates the day's run so
no crawling happens — but only AFTER unconditionally registering the next-day
re-invocation trigger: the trigger registration precedes the infeasibility
check. -/
theorem C3_infeasible_day_exits_after_trigger (s e : Int) (h : e < s) :
    schedule_finish s e
      = [SchedEvent.registerNextDayTrigger, SchedEvent.logAndExit] := by
  simp [schedule_finish, h]

/-- Concrete run of `C3_infeasible_day_exits_after_trigger` at start 10,
end 5. -/
theorem C3_infeasible_day_exits_after_trigger_witness :
    schedule_finish 10 5
      = [SchedEvent.registerNextDayTrigger, SchedEvent.logAndExit] :=
  C3_infeasible_day_exits_after_trigger 10 5 (by decide)

/-- Break-queue construction of `__generate_schedule` (lines 186-227). `now` is
the current time, `start_time` the nominal workday start and `dev_start` the
drawn start deviation (seconds); `breaks` lists each configured break window
`(break start, break end)` paired with its drawn `(start, end)` deviation. An
initial wait-for-day-start break `(now, start_dur)` is enqueued iff
`start_dur > 0`; then every configured break is enqueued, in source order, as
`(jittered start, jittered end - jittered start)`. -/
def build_break_queue (now start_time dev_start : Int)
    (breaks : List ((Int × Int) × (Int × Int))) : List (Int × Int) :=
  (if 0 < start_time - now + dev_start
    then [(now, start_time - now + dev_start)] else [])
    ++ breaks.map (fun b => (b.1.1 + b.2.1, (b.1.2 + b.2.2) - (b.1.1 + b.2.1)))

/-- The interrupt-filling `while` loop of `__generate_schedule` (lines 246-268)
for one boundary `(brStart, brDur)`. The random draws
`(interrupt_after, interrupt_dur)` are consumed from `rands` (the code draws
from an unbounded random stream; exhausting `rands` truncates the run). An
accepted candidate `(calcTime + gap, dur)` is pushed at the left end of the
deque (`appendleft` = cons) and the cursor moves to its end; a rejected one
moves the cursor past the boundary. Returns the new cursor, the deque and the
unconsumed draws. -/
def fill_gap (brStart brDur : Int) :
    Int → List (Int × Int) → List (Int × Int) →
      Int × List (Int × Int) × List (Int × Int)
  | calcTime, q, [] => (calcTime, q, [])
  | calcTime, q, (gap, dur) :: rest =>
    if calcTime < brStart then
      if brStart - 600 > calcTime + gap + dur then
        fill_gap brStart brDur (calcTime + gap + dur) ((calcTime + gap, dur) :: q) rest
      else
        fill_gap brStart brDur (brStart + brDur) q rest
    else (calcTime, q, (gap, dur) :: rest)

/-- One iteration of the `for br in break_list` loop (lines 239-268): if the
boundary has already started (`start <= calculate_time`), move the cursor past
it; otherwise fill the open gap before it with random interruptions. -/
def process_boundary (st : Int × List (Int × Int) × List (Int × Int))
    (br : Int × Int) : Int × List (Int × Int) × List (Int × Int) :=
  if br.1 ≤ st.1 then (br.1 + br.2, st.2.1, st.2.2)
  else fill_gap br.1 br.2 st.1 st.2.1 st.2.2

/-- Interrupt-schedule generation of `__generate_schedule` (lines 229-268):
walk the boundary list (the break-queue entries followed by the sentinel
`(end_crawling_time, 1)`) from a cursor starting at the current time, filling
every open gap; returns the resulting interrupt deque (left end first). -/
def generate_interrupts (boundaries : List (Int × Int)) (now : Int)
    (rands : List (Int × Int)) : List (Int × Int) :=
  (boundaries.foldl process_boundary (now, [], rands)).2.1

/-- The boundary (break or end-of-day sentinel) immediately following the
instant `s`: the first entry of the boundary list whose start is strictly
after `s`. -/
def next_boundary (s : Int) : List (Int × Int) → Option (Int × Int)
  | [] => none
  | b :: bs => if s < b.1 then some b else next_boundary s bs

/-- The buffer invariant of claim C5 for one interruption entry: the next
boundary exists and the interruption ends at least 600 seconds before it. -/
def buffer_ok (boundaries : List (Int × Int)) (e : Int × Int) : Bool :=
  match next_boundary e.1 boundaries with
  | some b => decide (e.1 + e.2 + 600 ≤ b.1)
  | none => false

lemma next_boundary_append (s : Int) (pre : List (Int × Int)) (b : Int × Int)
    (post : List (Int × Int)) (hpre : ∀ p ∈ pre, p.1 ≤ s) (hb : s < b.1) :
    next_boundary s (pre ++ b :: post) = some b := by
  induction pre with
  | nil => simp [next_boundary, hb]
  | cons p pre ih =>
    have hp : ¬ s < p.1 := not_lt.mpr (hpre p (by simp))
    simp only [List.cons_append, next_boundary, if_neg hp]
    exact ih (fun p' hp' => hpre p' (by simp [hp']))

lemma fill_gap_props (brStart brDur : Int) (hbd : 0 ≤ brDur) :
    ∀ (r : List (Int × Int)) (t : Int) (q : List (Int × Int)),
    (∀ p ∈ r, 0 ≤ p.1 ∧ 0 ≤ p.2) →
    ((∀ e ∈ (fill_gap brStart brDur t q r).2.1,
        e ∈ q ∨ (t ≤ e.1 ∧ 0 ≤ e.2 ∧ e.1 + e.2 + 600 ≤ brStart)) ∧
     ((fill_gap brStart brDur t q r).2.2 ≠ [] →
        brStart ≤ (fill_gap brStart brDur t q r).1) ∧
     (∀ p ∈ (fill_gap brStart brDur t q r).2.2, p ∈ r)) := by
  intro r
  induction r with
  | nil =>
    intro t q _
    refine ⟨fun e he => Or.inl he, fun h => absurd rfl h, fun p hp => hp⟩
  | cons hd rest ih =>
    intro t q hr
    obtain ⟨gap, dur⟩ := hd
    have hgap : 0 ≤ gap := (hr (gap, dur) (by simp)).1
    have hdur2 : 0 ≤ dur := (hr (gap, dur) (by simp)).2
    have hrrest : ∀ p ∈ rest, 0 ≤ p.1 ∧ 0 ≤ p.2 := fun p hp => hr p (by simp [hp])
    by_cases h1 : t < brStart
    · by_cases h2 : brStart - 600 > t + gap + dur
      · have heq : fill_gap brStart brDur t q ((gap, dur) :: rest)
            = fill_gap brStart brDur (t + gap + dur) ((t + gap, dur) :: q) rest := by
          simp [fill_gap, h1, h2]
        rw [heq]
        obtain ⟨ha, hb, hc⟩ := ih (t + gap + dur) ((t + gap, dur) :: q) hrrest
        refine ⟨?_, hb, fun p hp => List.mem_cons_of_mem _ (hc p hp)⟩
        intro e he
        rcases ha e he with he' | he'
        · rcases List.mem_cons.mp he' with he'' | he''
          · subst he''
            refine Or.inr ⟨?_, ?_, ?_⟩
            · show t ≤ t + gap
              omega
            · show (0 : Int) ≤ dur
              omega
            · show t + gap + dur + 600 ≤ brStart
              omega
          · exact Or.inl he''
        · exact Or.inr ⟨by omega, he'.2.1, he'.2.2⟩
      · have heq : fill_gap brStart brDur t q ((gap, dur) :: rest)
            = fill_gap brStart brDur (brStart + brDur) q rest := by
          simp [fill_gap, h1, h2]
        rw [heq]
        obtain ⟨ha, hb, hc⟩ := ih (brStart + brDur) q hrrest
        refine ⟨?_, hb, fun p hp => List.mem_cons_of_mem _ (hc p hp)⟩
        intro e he
        rcases ha e he with he' | he'
        · exact Or.inl he'
        · exact Or.inr ⟨by omega, he'.2.1, he'.2.2⟩
    · have heq : fill_gap brStart brDur t q ((gap, dur) :: rest)
          = (t, q, (gap, dur) :: rest) := by
        simp [fill_gap, h1]
      rw [heq]
      exact ⟨fun e he => Or.inl he, fun _ => by omega, fun p hp => hp⟩

lemma generate_interrupts_aux (full : List (Int × Int))
    (hsort : full.Pairwise (fun a b => a.1 ≤ b.1))
    (hdur : ∀ b ∈ full, 0 ≤ b.2) :
    ∀ (remaining processed : List (Int × Int)), full = processed ++ remaining →
    ∀ (t : Int) (q r : List (Int × Int)),
    (r ≠ [] → ∀ b ∈ processed, b.1 ≤ t) →
    (∀ e ∈ q, buffer_ok full e = true) →
    (∀ p ∈ r, 0 ≤ p.1 ∧ 0 ≤ p.2) →
    ∀ e ∈ (remaining.foldl process_boundary (t, q, r)).2.1,
      buffer_ok full e = true := by
  intro remaining
  induction remaining with
  | nil =>
    intro processed hfull t q r hA hq hr e he
    exact hq e (by simpa using he)
  | cons br rest ih =>
    intro processed hfull t q r hA hq hr e he
    obtain ⟨brS, brD⟩ := br
    have hmem_br : (brS, brD) ∈ full := by rw [hfull]; simp
    have hbrD : 0 ≤ brD := hdur _ hmem_br
    have hpb : ∀ b ∈ processed, b.1 ≤ brS := by
      rw [hfull] at hsort
      have hx := (List.pairwise_append.mp hsort).2.2
      intro b hb
      exact hx b hb (brS, brD) (by simp)
    rw [List.foldl_cons] at he
    by_cases hle : brS ≤ t
    · have hstep : process_boundary (t, q, r) (brS, brD) = (brS + brD, q, r) := by
        simp [process_boundary, hle]
      rw [hstep] at he
      refine ih (processed ++ [(brS, brD)]) (by simp [hfull]) (brS + brD) q r
        ?_ hq hr e he
      intro _ b hb
      rcases List.mem_append.mp hb with hb' | hb'
      · have := hpb b hb'; omega
      · have hb'' : b = (brS, brD) := by simpa using hb'
        subst hb''
        show brS ≤ brS + brD
        omega
    · have hstep : process_boundary (t, q, r) (brS, brD)
          = fill_gap brS brD t q r := by
        simp [process_boundary, hle]
      rw [hstep] at he
      cases r with
      | nil =>
        rw [show fill_gap brS brD t q [] = (t, q, []) from rfl] at he
        refine ih (processed ++ [(brS, brD)]) (by simp [hfull]) t q []
          ?_ hq ?_ e he
        · intro hrne; exact absurd rfl hrne
        · intro p hp; exact absurd hp (List.not_mem_nil p)
      | cons r0 rtail =>
        have hApr : ∀ b ∈ processed, b.1 ≤ t := hA (by simp)
        obtain ⟨ha, hb2, hc⟩ := fill_gap_props brS brD hbrD (r0 :: rtail) t q hr
        rcases hfg : fill_gap brS brD t q (r0 :: rtail) with ⟨t', q', r'⟩
        rw [hfg] at ha hb2 hc he
        have hq' : ∀ e' ∈ q', buffer_ok full e' = true := by
          intro e' he'
          rcases ha e' he' with h | h
          · exact hq e' h
          · obtain ⟨ht, hd, hbuf⟩ := h
            have hlt : e'.1 < brS := by omega
            have hpre : ∀ p ∈ processed, p.1 ≤ e'.1 := by
              intro p hp
              have := hApr p hp
              omega
            have hnb : next_boundary e'.1 full = some (brS, brD) := by
              rw [hfull]
              exact next_boundary_append e'.1 processed (brS, brD) rest hpre hlt
            simp [buffer_ok, hnb, hbuf]
        refine ih (processed ++ [(brS, brD)]) (by simp [hfull]) t' q' r'
          ?_ hq' (fun p hp => hr p (hc p hp)) e he
        intro hrne b hb
        have hts : brS ≤ t' := hb2 hrne
        rcases List.mem_append.mp hb with hb' | hb'
        · have := hpb b hb'; omega
        · have hb'' : b = (brS, brD) := by simpa using hb'
          subst hb''
          show brS ≤ t'
          omega

/-- Claim C5: with the boundary list sorted by start time (the specification
assumes the configured breaks chronological), non-negative boundary durations
and non-negative random draws, every interruption placed in the deque by
`__generate_schedule` satisfies the buffer invariant: it ends at least 600
seconds before the boundary (break or end-of-day) immediately following it —
`interruption.start + interruption.duration + 600 ≤ nextBoundary.start`. -/
theorem C5_interrupt_buffer (boundaries : List (Int × Int)) (now : Int)
    (rands : List (Int × Int))
    (hsort : boundaries.Pairwise (fun a b => a.1 ≤ b.1))
    (hdur : ∀ b ∈ boundaries, 0 ≤ b.2)
    (hrands : ∀ p ∈ rands, 0 ≤ p.1 ∧ 0 ≤ p.2) :
    (generate_interrupts boundaries now rands).all (buffer_ok boundaries) = true := by
  rw [List.all_eq_true]
  intro e he
  exact generate_interrupts_aux boundaries hsort hdur boundaries [] rfl now [] rands
    (fun _ b hb => absurd hb (List.not_mem_nil b))
    (fun e' he' => absurd he' (List.not_mem_nil e'))
    hrands e he

/-- Concrete run of `C5_interrupt_buffer`: a break at 7200 lasting 3600s, the
end-of-day sentinel at 28800, draws (3600, 600) and (2000, 900) from time 0;
the single generated interruption (3600, 600) ends 3000 s before the break. -/
theorem C5_interrupt_buffer_witness :
    (generate_interrupts [(7200, 3600), (28800, 1)] 0
        [(3600, 600), (2000, 900)]).all
      (buffer_ok [(7200, 3600), (28800, 1)]) = true :=
  C5_interrupt_buffer [(7200, 3600), (28800, 1)] 0 [(3600, 600), (2000, 900)]
    (by decide) (by decide) (by decide)

/-- Start times of a schedule-entry list are non-decreasing. -/
def sorted_starts : List (Int × Int) → Bool
  | a :: b :: rest => decide (a.1 ≤ b.1) && sorted_starts (b :: rest)
  | _ => true

/-- An integer list is non-decreasing. -/
def sorted_ints : List Int → Bool
  | a :: b :: rest => decide (a ≤ b) && sorted_ints (b :: rest)
  | _ => true

/-- Two configured break windows (start, end) do not overlap. -/
def windows_disjoint (a b : Int × Int) : Bool :=
  decide (a.2 ≤ b.1) || decide (b.2 ≤ a.1)

/-- The configured break windows are pairwise non-overlapping. -/
def non_overlapping : List (Int × Int) → Bool
  | [] => true
  | w :: ws => ws.all (windows_disjoint w) && non_overlapping ws

/-- Repeated polling of `check_break_interrupt` (the coordinator's consumption
loop) `n` times at time `tNow`, collecting the returned durations. -/
def drain_durations : Nat → Int → TimeCtrl → List Int
  | 0, _, _ => []
  | n + 1, tNow, tc =>
    (check_break_interrupt tNow tc).1 ::
      drain_durations n tNow (check_break_interrupt tNow tc).2

lemma drain_durations_all_due (tF : Int) :
    ∀ q : List (Int × Int), (∀ e ∈ q, e.1 ≤ tF) →
    drain_durations q.length tF ⟨q, []⟩ = q.map Prod.snd := by
  intro q
  induction q with
  | nil => intro _; rfl
  | cons e rest ih =>
    intro hq
    obtain ⟨s, d⟩ := e
    have hs : s ≤ tF := by simpa using hq (s, d) (by simp)
    have hstep : check_break_interrupt tF ⟨(s, d) :: rest, []⟩ = (d, ⟨rest, []⟩) := by
      simp [check_break_interrupt, hs]
    simp only [List.length_cons, drain_durations, hstep, List.map_cons]
    exact congrArg (List.cons d) (ih (fun e' he' => hq e' (by simp [he'])))

lemma sorted_starts_eq_map (l : List (Int × Int)) :
    sorted_starts l = sorted_ints (l.map Prod.fst) := by
  induction l with
  | nil => rfl
  | cons a rest ih =>
    cases rest with
    | nil => rfl
    | cons b rest2 =>
      simp only [sorted_starts, sorted_ints, List.map_cons] at ih ⊢
      rw [ih]

lemma sorted_ints_cons (x : Int) (l : List Int)
    (hx : ∀ y ∈ l, x ≤ y) (hl : sorted_ints l = true) :
    sorted_ints (x :: l) = true := by
  cases l with
  | nil => rfl
  | cons y ys =>
    simp only [sorted_ints, Bool.and_eq_true, decide_eq_true_eq]
    exact ⟨hx y (by simp), hl⟩

lemma map_fst_jittered (l : List ((Int × Int) × (Int × Int))) :
    (l.map (fun b => (b.1.1 + b.2.1, (b.1.2 + b.2.2) - (b.1.1 + b.2.1)))).map Prod.fst
      = l.map (fun b => b.1.1 + b.2.1) := by
  induction l with
  | nil => rfl
  | cons a l ih => simp only [List.map_cons, ih]

/-- Claim C6 counterexample: the configured break windows (200, 300) and
(50, 80) are non-overlapping, all drawn deviations are 0 (allowed by "any
deviation magnitudes"), `now` is 0 and the nominal start is 0 (no initial
break), yet the break queue produced — `[(200, 100), (50, 30)]`, the source
order of the breaks — does NOT have non-decreasing start times. -/
theorem C6_counterexample :
    non_overlapping [(200, 300), (50, 80)] = true ∧
    build_break_queue 0 0 0 [((200, 300), (0, 0)), ((50, 80), (0, 0))]
      = [(200, 100), (50, 30)] ∧
    sorted_starts (build_break_queue 0 0 0 [((200, 300), (0, 0)), ((50, 80), (0, 0))])
      = false := by decide

/-- Claim C6 (amended): if the configured breaks, after the drawn deviations
are applied, have non-decreasing jittered start times none of which precedes
the current time, then the break queue built by `__generate_schedule` has
non-decreasing start times, holds the N configured breaks plus at most one
leading wait-for-day-start break, and draining it through
`check_break_interrupt` once time has passed every start yields exactly those
N+{0,1} entries' durations in that same queue order. -/
theorem C6_break_queue_order (now start_time dev_start tF : Int)
    (breaks : List ((Int × Int) × (Int × Int)))
    (hj : sorted_ints (breaks.map (fun b => b.1.1 + b.2.1)) = true)
    (hnow : ∀ b ∈ breaks, now ≤ b.1.1 + b.2.1)
    (htF : ∀ e ∈ build_break_queue now start_time dev_start breaks, e.1 ≤ tF) :
    sorted_starts (build_break_queue now start_time dev_start breaks) = true ∧
    ((build_break_queue now start_time dev_start breaks).length = breaks.length ∨
      (build_break_queue now start_time dev_start breaks).length = breaks.length + 1) ∧
    drain_durations (build_break_queue now start_time dev_start breaks).length tF
        ⟨build_break_queue now start_time dev_start breaks, []⟩
      = (build_break_queue now start_time dev_start breaks).map Prod.snd := by
  refine ⟨?_, ?_, drain_durations_all_due tF _ htF⟩
  · rw [sorted_starts_eq_map]
    by_cases hsd : 0 < start_time - now + dev_start
    · have hbq : build_break_queue now start_time dev_start breaks
          = (now, start_time - now + dev_start) ::
            breaks.map (fun b => (b.1.1 + b.2.1, (b.1.2 + b.2.2) - (b.1.1 + b.2.1))) := by
        simp [build_break_queue, hsd]
      rw [hbq]
      simp only [List.map_cons, map_fst_jittered]
      refine sorted_ints_cons _ _ ?_ hj
      intro y hy
      obtain ⟨b, hb, rfl⟩ := List.mem_map.mp hy
      exact hnow b hb
    · have hbq : build_break_queue now start_time dev_start breaks
          = breaks.map (fun b => (b.1.1 + b.2.1, (b.1.2 + b.2.2) - (b.1.1 + b.2.1))) := by
        simp [build_break_queue, hsd]
      rw [hbq, map_fst_jittered]
      exact hj
  · by_cases hsd : 0 < start_time - now + dev_start
    · right
      simp [build_break_queue, hsd, Nat.add_comm]
    · left
      simp [build_break_queue, hsd]

/-- Concrete run of `C6_break_queue_order`: now 0, nominal start 100, zero
deviations, breaks (200, 300) and (400, 450): the queue is the initial break
(0, 100) followed by (200, 100) and (400, 50); it is sorted, has 2+1 entries
and drains at time 1000 to the durations [100, 100, 50] in order. -/
theorem C6_break_queue_order_witness :
    sorted_starts (build_break_queue 0 100 0
        [((200, 300), (0, 0)), ((400, 450), (0, 0))]) = true ∧
    ((build_break_queue 0 100 0 [((200, 300), (0, 0)), ((400, 450), (0, 0))]).length
        = 2 ∨
      (build_break_queue 0 100 0 [((200, 300), (0, 0)), ((400, 450), (0, 0))]).length
        = 2 + 1) ∧
    drain_durations
        (build_break_queue 0 100 0 [((200, 300), (0, 0)), ((400, 450), (0, 0))]).length
        1000
        ⟨build_break_queue 0 100 0 [((200, 300), (0, 0)), ((400, 450), (0, 0))], []⟩
      = (build_break_queue 0 100 0
          [((200, 300), (0, 0)), ((400, 450), (0, 0))]).map Prod.snd :=
  C6_break_queue_order 0 100 0 1000 [((200, 300), (0, 0)), ((400, 450), (0, 0))]
    (by decide) (by decide) (by decide)

/-- The cross-thread control state shared by the command-input thread and the
crawl loop: the two `threading.Event` flags (pause, terminate) plus
notification counters for the two `threading.Condition` objects (resume,
captcha-solved); a `notify()` call increments the counter of the corresponding
condition. These are the only pieces of state the command surface touches. -/
structure ControlState where
  paused : Bool
  terminated : Bool
  resumeNotifies : Nat
  solvedNotifies : Nat
deriving Repr, DecidableEq

/-- Translation of `CrawlCommand.pause` (crawl_command.py lines 44-57):
`self.pause.set()`. -/
def requestPause (s : ControlState) : ControlState :=
  ⟨true, s.terminated, s.resumeNotifies, s.solvedNotifies⟩

/-- Translation of `CrawlCommand.terminate` (crawl_command.py lines 59-71):
`self.terminate.set()`. -/
def requestTerminate (s : ControlState) : ControlState :=
  ⟨s.paused, true, s.resumeNotifies, s.solvedNotifies⟩

/-- Translation of `CrawlCommand.resume` (crawl_command.py lines 73-90): the
`self.pause.clear()` line is commented out, so the method only notifies the
resume condition (`acquire` / `notify` / `release`). -/
def requestResume (s : ControlState) : ControlState :=
  ⟨s.paused, s.terminated, s.resumeNotifies + 1, s.solvedNotifies⟩

/-- Translation of `CaptchaCommand.solved` (captcha_command.py lines 29-41):
notifies the captcha-solved condition (`acquire` / `notify` / `release`). -/
def captchaSolved (s : ControlState) : ControlState :=
  ⟨s.paused, s.terminated, s.resumeNotifies, s.solvedNotifies + 1⟩

/-- The operator command surface: "pause", "resume", "terminate"
(`CrawlCommand.command_list`) and "solved" (`CaptchaCommand.command_list`). -/
inductive Command
  | pause
  | resume
  | terminate
  | solved
deriving Repr, DecidableEq

/-- Dispatch of one command to its effect on the control state (the
`command_list` dictionaries of CrawlCommand and CaptchaCommand). -/
def applyCommand (s : ControlState) (c : Command) : ControlState :=
  match c with
  | .pause => requestPause s
  | .resume => requestResume s
  | .terminate => requestTerminate s
  | .solved => captchaSolved s

/-- Claim C8: `resume` does not modify the paused flag — after `pause()` then
`resume()` the flag is still set; `resume`, `terminate` and `solved` all leave
the flag exactly as it was, and only `pause` ever sets it. -/
theorem C8_resume_keeps_paused (s : ControlState) :
    (requestResume (requestPause s)).paused = true ∧
    (requestResume s).paused = s.paused ∧
    (requestTerminate s).paused = s.paused ∧
    (captchaSolved s).paused = s.paused ∧
    (requestPause s).paused = true :=
  ⟨rfl, rfl, rfl, rfl, rfl⟩

/-- The CAPTCHA type enumeration (enums/captcha_type.py lines 45-58). -/
inductive CaptchaType
  | SIMPLE_MATH_PROBLEM
  | WORD_PROBLEM
  | TIME_BASED
  | HONEYPOT
  | PICTURE_IDENTIFICATION
  | RECAPTCHA
  | NOCAPTCHA_RECAPTCHA
  | INVISIBLE_RECAPTCHA
  | SWEET_CAPTCHA
  | BIOMETRICS
  | HCAPTCHA
  | CUSTOM_SECOND_FACTOR
  | DREAD
  | DDOS_GUARD
deriving Repr, DecidableEq

/-- The two `threading.Condition` objects shared through the control state. -/
inductive CondVar
  | resumeCond
  | solvedCond
deriving Repr, DecidableEq

/-- A wait request: the condition waited on and the timeout passed to
`Condition.wait` (`none` = no timeout argument, wait indefinitely). -/
structure WaitReq where
  cond : CondVar
  timeout : Option Int
deriving Repr, DecidableEq

/-- Translation of `CaptchaSolver.solve_captcha` (captcha_solver.py lines
20-37): for every type other than `HONEYPOT` it performs
`self.__solved_condition.wait()` — a wait on the solved condition with no
timeout argument; for `HONEYPOT` it performs no wait at all. -/
def solve_captcha (captcha_type : CaptchaType) : Option WaitReq :=
  if captcha_type = CaptchaType.HONEYPOT then none
  else some ⟨CondVar.solvedCond, none⟩

/-- Which condition variable a command notifies: `resume` notifies the resume
condition and `solved` the captcha-solved condition; `pause` and `terminate`
only set their `threading.Event` flags and notify no condition. -/
def notifiedCond : Command → Option CondVar
  | .resume => some CondVar.resumeCond
  | .solved => some CondVar.solvedCond
  | .pause => none
  | .terminate => none

/-- Semantics of a `threading.Condition` wait with no timeout: a thread
blocked on `cv` stays blocked across a command unless that command notifies
`cv`. -/
def waitStep (blocked : Option CondVar) (c : Command) : Option CondVar :=
  match blocked with
  | none => none
  | some cv => if notifiedCond c = some cv then none else some cv

/-- Claim C9: for every CAPTCHA type other than honeypot, `solve_captcha`
blocks on the captcha-solved condition with no timeout, and the wait survives
every command sequence containing no `solved` command — in particular a
terminate request does not exit it — while the `solved` command releases it;
for the honeypot type no wait occurs at all. -/
theorem C9_captcha_wait (t : CaptchaType) (h : t ≠ CaptchaType.HONEYPOT) :
    solve_captcha t = some ⟨CondVar.solvedCond, none⟩ ∧
    solve_captcha CaptchaType.HONEYPOT = none ∧
    (∀ cs : List Command, (∀ c ∈ cs, c ≠ Command.solved) →
      cs.foldl waitStep (some CondVar.solvedCond) = some CondVar.solvedCond) ∧
    waitStep (some CondVar.solvedCond) Command.solved = none := by
  refine ⟨by simp [solve_captcha, h], rfl, ?_, rfl⟩
  intro cs hcs
  induction cs with
  | nil => rfl
  | cons c cs ih =>
    have hc : waitStep (some CondVar.solvedCond) c = some CondVar.solvedCond := by
      cases c with
      | solved => exact absurd rfl (hcs Command.solved (by simp))
      | pause => rfl
      | resume => rfl
      | terminate => rfl
    rw [List.foldl_cons, hc]
    exact ih (fun c' hc' => hcs c' (by simp [hc']))

/-- Concrete run of `C9_captcha_wait` at the ReCAPTCHA type with the command
sequence pause, terminate, resume: the captcha wait is entered without a
timeout and is still blocked after all three commands; `solved` releases
it. -/
theorem C9_captcha_wait_witness :
    solve_captcha CaptchaType.RECAPTCHA = some ⟨CondVar.solvedCond, none⟩ ∧
    solve_captcha CaptchaType.HONEYPOT = none ∧
    [Command.pause, Command.terminate, Command.resume].foldl waitStep
      (some CondVar.solvedCond) = some CondVar.solvedCond ∧
    waitStep (some CondVar.solvedCond) Command.solved = none := by
  obtain ⟨h1, h2, h3, h4⟩ := C9_captcha_wait CaptchaType.RECAPTCHA (by decide)
  exact ⟨h1, h2, h3 [Command.pause, Command.terminate, Command.resume] (by decide), h4⟩

/-- Outcome of one run of the pause-poll loop of `CrawlerMain.__crawling`
(crawler_main.py lines 345-356). -/
inductive PollOutcome
  | exitedToRunning
  | shutdownCalled
  | stillPaused
deriving Repr, DecidableEq

/-- The pause-poll loop of `__crawling` (lines 345-356): while the pause event
is set, sleep 2 seconds and call `__shutdown()` (which exits the process) if
the terminate event is set. Commands arriving from the CLI thread during each
sleep are modelled as one batch per iteration; the run is truncated
(`stillPaused`) when the batches are exhausted while the flag is still set. -/
def pausePoll : List (List Command) → ControlState → PollOutcome × ControlState
  | [], s => if s.paused then (.stillPaused, s) else (.exitedToRunning, s)
  | batch :: rest, s =>
    if s.paused then
      let s' := batch.foldl applyCommand s
      if s'.terminated then (.shutdownCalled, s')
      else pausePoll rest s'
    else (.exitedToRunning, s)

lemma applyCommand_preserves_paused (s : ControlState) (c : Command)
    (h : s.paused = true) : (applyCommand s c).paused = true := by
  cases c <;> simp [applyCommand, requestPause, requestResume, requestTerminate,
    captchaSolved, h]

lemma foldl_applyCommand_preserves_paused (batch : List Command) :
    ∀ s : ControlState, s.paused = true →
      (batch.foldl applyCommand s).paused = true := by
  induction batch with
  | nil => intro s h; exact h
  | cons c cs ih =>
    intro s h
    exact ih _ (applyCommand_preserves_paused s c h)

lemma pausePoll_no_exit (batches : List (List Command)) :
    ∀ s : ControlState, s.paused = true →
      (pausePoll batches s).1 = PollOutcome.shutdownCalled ∨
        (pausePoll batches s).1 = PollOutcome.stillPaused := by
  induction batches with
  | nil =>
    intro s h
    right
    simp [pausePoll, h]
  | cons batch rest ih =>
    intro s h
    have h' := foldl_applyCommand_preserves_paused batch s h
    by_cases ht : (batch.foldl applyCommand s).terminated = true
    · left
      simp [pausePoll, h, ht]
    · have hrec := ih (batch.foldl applyCommand s) h'
      simpa [pausePoll, h, ht] using hrec

/-- Claim C10 (implicit): none of the four commands of the command surface
clears the paused flag, so once the flag is set the 2-second pause-poll loop
of the coordinator can never exit back to Running: for every sequence of
command batches it either stays in the poll loop or calls shutdown once the
terminate flag is observed. -/
theorem C10_pause_loop_only_exits_by_terminate (s : ControlState)
    (h : s.paused = true) (batches : List (List Command)) :
    (applyCommand s Command.pause).paused = true ∧
    (applyCommand s Command.resume).paused = true ∧
    (applyCommand s Command.terminate).paused = true ∧
    (applyCommand s Command.solved).paused = true ∧
    (pausePoll batches s).1 ≠ PollOutcome.exitedToRunning ∧
    ((pausePoll batches s).1 = PollOutcome.shutdownCalled ∨
      (pausePoll batches s).1 = PollOutcome.stillPaused) := by
  refine ⟨applyCommand_preserves_paused s Command.pause h,
    applyCommand_preserves_paused s Command.resume h,
    applyCommand_preserves_paused s Command.terminate h,
    applyCommand_preserves_paused s Command.solved h,
    ?_, pausePoll_no_exit batches s h⟩
  rcases pausePoll_no_exit batches s h with h' | h' <;> simp [h']

/-- Concrete run of `C10_pause_loop_only_exits_by_terminate`: starting paused
and not terminated, a resume command arrives during the first poll iteration
and a terminate command during the second; the loop never exits to Running
and ends in shutdown. -/
theorem C10_pause_loop_only_exits_by_terminate_witness :
    (applyCommand ⟨true, false, 0, 0⟩ Command.pause).paused = true ∧
    (applyCommand ⟨true, false, 0, 0⟩ Command.resume).paused = true ∧
    (applyCommand ⟨true, false, 0, 0⟩ Command.terminate).paused = true ∧
    (applyCommand ⟨true, false, 0, 0⟩ Command.solved).paused = true ∧
    (pausePoll [[Command.resume], [Command.terminate]] ⟨true, false, 0, 0⟩).1
      ≠ PollOutcome.exitedToRunning ∧
    ((pausePoll [[Command.resume], [Command.terminate]] ⟨true, false, 0, 0⟩).1
        = PollOutcome.shutdownCalled ∨
      (pausePoll [[Command.resume], [Command.terminate]] ⟨true, false, 0, 0⟩).1
        = PollOutcome.stillPaused) :=
  C10_pause_loop_only_exits_by_terminate ⟨true, false, 0, 0⟩ rfl
    [[Command.resume], [Command.terminate]]
